import Mathlib

/-!
Verification development for the receipt-analyzer repository.

The TypeScript source is shallowly embedded: strings are `String`/`List Char`,
JavaScript runtime values flowing through the `any`-typed extraction pipeline
are modelled by `JSVal`, JavaScript regular expressions are transcribed into a
small `RE` syntax and executed by a fuel-based backtracking matcher `reList`
that enumerates match candidates in JavaScript priority order (leftmost start
position, greedy/lazy quantifier order, left-biased alternation, the ES
"no progress in an optional iteration fails that branch" rule).
-/

namespace ReceiptAnalyzer

/-- Runtime values of the `any`-typed extraction pipeline (strings, numbers,
`null`, `undefined`, `NaN`). -/
inductive JSVal where
  | str (s : String)
  | num (n : Int)
  | null
  | undefined
  | nan
deriving DecidableEq, Repr

/-- JavaScript truthiness for the values that occur in the pipeline. -/
def JSVal.truthy : JSVal → Bool
  | .str s => s ≠ ""
  | .num n => n ≠ 0
  | .null => false
  | .undefined => false
  | .nan => false

/-- `a || b` on JavaScript values. -/
def jsOr (a b : JSVal) : JSVal := if a.truthy then a else b

/-- The character set matched by the JavaScript regex class `\s`
(and trimmed by `String.prototype.trim`). -/
def isJsSpaceB (c : Char) : Bool :=
  c = ' ' || c = '\t' || c = '\n' || c = '\r' ||
  c.val = 0x0b || c.val = 0x0c || c.val = 0xa0 || c.val = 0x1680 ||
  (0x2000 ≤ c.val && c.val ≤ 0x200a) ||
  c.val = 0x2028 || c.val = 0x2029 || c.val = 0x202f || c.val = 0x205f ||
  c.val = 0x3000 || c.val = 0xfeff

/-- The character set matched by the JavaScript regex class `\d`. -/
def isJsDigitB (c : Char) : Bool := '0' ≤ c && c ≤ '9'

/-- JavaScript line terminators (excluded by `.`, accepted by a multiline `$`). -/
def isJsNewline (c : Char) : Bool :=
  c = '\n' || c = '\r' || c.val = 0x2028 || c.val = 0x2029

/-- `String.prototype.trim`. -/
def jsTrim (s : String) : String :=
  String.mk (((s.data.dropWhile isJsSpaceB).reverse.dropWhile isJsSpaceB).reverse)

/-- Decimal value of a digit string. -/
def digitsVal (l : List Char) : Int :=
  l.foldl (fun a c => 10 * a + (Int.ofNat (c.toNat - '0'.toNat))) 0

/-- `parseInt(s, 10)`: skip leading whitespace, optional sign, then the longest
decimal-digit run; `NaN` when that run is empty. -/
def jsParseInt (s : String) : JSVal :=
  let t := s.data.dropWhile isJsSpaceB
  let signNeg : Bool := match t with | '-' :: _ => true | _ => false
  let t2 := match t with
    | '-' :: r => r
    | '+' :: r => r
    | _ => t
  let ds := t2.takeWhile isJsDigitB
  if ds.isEmpty then .nan
  else .num ((if signNeg then -1 else 1) * digitsVal ds)

/-- `s.replace(/,/g, "")`. -/
def stripCommas (s : String) : String := String.mk (s.data.filter (fun c => c ≠ ','))

/-- `v.replace(/[^\d,]/g, "")`: keep only digits and commas. -/
def keepDigitComma (s : String) : String :=
  String.mk (s.data.filter (fun c => isJsDigitB c || c = ','))

/-! ## Regex syntax and matcher -/

/-- One item of a regex character class. -/
inductive ClsItem where
  | ch (c : Char)
  | rng (lo hi : Char)
  | dig
  | sp
deriving DecidableEq, Repr

/-- Regex syntax: the fragment used by the source's patterns (no lookaround,
no backreferences; `eos` is `$`). -/
inductive RE where
  | eps
  | lit (c : Char)
  | cls (neg : Bool) (items : List ClsItem)
  | dot
  | seq (a b : RE)
  | alt (a b : RE)
  | rep (r : RE) (lo : Nat) (hi : Option Nat) (lz : Bool)
  | grp (i : Nat) (r : RE)
  | eos
deriving DecidableEq, Repr

/-- Character comparison, case-folded when the `i` flag is set. -/
def charEq (ci : Bool) (x c : Char) : Bool :=
  if ci then x.toLower = c.toLower else x = c

def clsItemMatch (ci : Bool) : ClsItem → Char → Bool
  | .ch c0, c => charEq ci c c0
  | .rng lo hi, c => lo ≤ c && c ≤ hi
  | .dig, c => isJsDigitB c
  | .sp, c => isJsSpaceB c

def clsMatch (ci : Bool) (items : List ClsItem) (c : Char) : Bool :=
  items.any (fun it => clsItemMatch ci it c)

/-- A matcher state: remaining input, absolute position, captures so far
(later entries shadow earlier ones, as in an association list). -/
structure MSt where
  suff : List Char
  pos : Nat
  caps : List (Nat × String)
deriving DecidableEq, Repr

/-- Capture lookup (`match[i]`). -/
def lookupCap (i : Nat) (caps : List (Nat × String)) : Option String :=
  (caps.find? (fun kv => kv.1 == i)).map (fun kv => kv.2)

/-- All ways the regex can match a prefix of `st.suff`, in JavaScript
backtracking priority order; the head of the list is the match JavaScript
returns. `fuel` only bounds recursion depth: one unit per syntax node plus one
per quantifier iteration, so `input length + constant` is ample for the
patterns at hand. -/
def reList (ci ml : Bool) : Nat → RE → MSt → List MSt
  | 0, _, _ => []
  | fuel + 1, re, st =>
    match re with
    | .eps => [st]
    | .lit c =>
      match st.suff with
      | [] => []
      | x :: rest => if charEq ci x c then [⟨rest, st.pos + 1, st.caps⟩] else []
    | .cls neg items =>
      match st.suff with
      | [] => []
      | x :: rest => if clsMatch ci items x ≠ neg then [⟨rest, st.pos + 1, st.caps⟩] else []
    | .dot =>
      match st.suff with
      | [] => []
      | x :: rest => if isJsNewline x then [] else [⟨rest, st.pos + 1, st.caps⟩]
    | .seq a b => (reList ci ml fuel a st).flatMap (fun st1 => reList ci ml fuel b st1)
    | .alt a b => reList ci ml fuel a st ++ reList ci ml fuel b st
    | .rep r lo hi lz =>
      if lo ≠ 0 then
        (reList ci ml fuel r st).flatMap
          (fun st1 => reList ci ml fuel (.rep r (lo - 1) (hi.map (· - 1)) lz) st1)
      else
        match hi with
        | some 0 => [st]
        | _ =>
          let more := (reList ci ml fuel r st).flatMap
            (fun st1 =>
              if st.pos < st1.pos then
                reList ci ml fuel (.rep r 0 (hi.map (· - 1)) lz) st1
              else [])
          if lz then st :: more else more ++ [st]
    | .grp i r =>
      (reList ci ml fuel r st).map
        (fun st1 => ⟨st1.suff, st1.pos, (i, String.mk (st.suff.take (st1.pos - st.pos))) :: st1.caps⟩)
    | .eos =>
      match st.suff with
      | [] => [st]
      | x :: _ => if ml && isJsNewline x then [st] else []

/-- Fuel budget for matching against an input suffix. -/
def fuelFor (s : List Char) : Nat := s.length + 200

/-- Unanchored leftmost search (`String.prototype.match` without `g`):
try each start position in order and take the priority-first match there.
The whole match is recorded as capture group 0. -/
def searchAux (ci ml : Bool) (fuel : Nat) (re : RE) : List Char → Nat → Option MSt
  | [], pos => (reList ci ml fuel (.grp 0 re) ⟨[], pos, []⟩).head?
  | c :: rest, pos =>
    match (reList ci ml fuel (.grp 0 re) ⟨c :: rest, pos, []⟩).head? with
    | some st => some st
    | none => searchAux ci ml fuel re rest (pos + 1)

/-- A source regex together with its `i` and `m` flags. -/
structure Pat where
  re : RE
  ci : Bool := false
  ml : Bool := false
deriving DecidableEq, Repr

/-- `text.match(pat)`, returning the capture list on success. -/
def searchCaps (p : Pat) (text : String) : Option (List (Nat × String)) :=
  (searchAux p.ci p.ml (fuelFor text.data) p.re text.data 0).map (fun st => st.caps)

/-- `text.match(pat)` then `match[n]` (absent both when there is no match and
when the group did not capture). -/
def matchGroupN (p : Pat) (n : Nat) (text : String) : Option String :=
  (searchCaps p text).bind (lookupCap n)

/-- `match[1]`, the capture the extraction loop uses. -/
def matchGroup1 (p : Pat) (text : String) : Option String := matchGroupN p 1 text

/-- `text.match(pat)` with the `g` flag: the list of successive non-overlapping
whole-match strings, each search resuming at the end of the previous match
(with the one-character bump on an empty match). -/
def matchAllAux (ci ml : Bool) (re : RE) : Nat → List Char → Nat → List String
  | 0, _, _ => []
  | gas + 1, s, pos =>
    match searchAux ci ml (fuelFor s) re s pos with
    | none => []
    | some st =>
      match lookupCap 0 st.caps with
      | none => []
      | some m0 =>
        if m0.length = 0 then
          match st.suff with
          | [] => [m0]
          | _ :: rest => m0 :: matchAllAux ci ml re gas rest (st.pos + 1)
        else m0 :: matchAllAux ci ml re gas st.suff st.pos

def jsMatchAll (p : Pat) (text : String) : List String :=
  matchAllAux p.ci p.ml p.re (text.data.length + 1) text.data 0

/-! ## Builders used to transcribe the source's regex literals -/

def rseq (l : List RE) : RE := l.foldr RE.seq RE.eps

/-- A literal string, one `lit` node per character. -/
def rstr (s : String) : RE := rseq (s.data.map RE.lit)

def ralt : List RE → RE
  | [] => RE.eps
  | [r] => r
  | r :: rs => RE.alt r (ralt rs)

def star (r : RE) : RE := .rep r 0 none false
def starL (r : RE) : RE := .rep r 0 none true
def plus (r : RE) : RE := .rep r 1 none false
def plusL (r : RE) : RE := .rep r 1 none true
def opt (r : RE) : RE := .rep r 0 (some 1) false
def cls1 (l : List ClsItem) : RE := RE.cls false l
def ncls (l : List ClsItem) : RE := RE.cls true l

/-- `\s` as a single-character pattern. -/
def spc : RE := cls1 [.sp]
/-- `\d` as a single-character pattern. -/
def dcl : RE := cls1 [.dig]
/-- The class `[\s:：]` that separates labels from values. -/
def spcol : RE := cls1 [.sp, .ch ':', .ch '：']
/-- The optional currency mark `[\¥\\]?`. -/
def yenOpt : RE := opt (cls1 [.ch '¥', .ch '\\'])
/-- The digit token `\d[\d,]+` shared by every numeric capture. -/
def numTok : RE := RE.seq dcl (plus (cls1 [.dig, .ch ',']))

/-! ## The rule tables (`japaneseReceiptPrompts`), transcribed pattern by pattern -/

/-- `/店名[:|：]\s*(.+)/i` -/
def storeNamePat1 : Pat :=
  { re := rseq [rstr "店名", cls1 [.ch ':', .ch '|', .ch '：'], star spc, .grp 1 (plus .dot)]
    ci := true }

/-- `/(.+)\s*\n.*領収/i` -/
def storeNamePat2 : Pat :=
  { re := rseq [.grp 1 (plus .dot), star spc, .lit '\n', star .dot, rstr "領収"]
    ci := true }

/-- `/(.{2,20})\s*\n.*[0-9]{3}-[0-9]{4}/i` -/
def storeNamePat3 : Pat :=
  { re := rseq [.grp 1 (.rep .dot 2 (some 20) false), star spc, .lit '\n', star .dot,
                .rep (cls1 [.rng '0' '9']) 3 (some 3) false, .lit '-',
                .rep (cls1 [.rng '0' '9']) 4 (some 4) false]
    ci := true }

/-- `/商号名称[:：\s]*(.*?)[\s\n]/i` -/
def storeNamePat4 : Pat :=
  { re := rseq [rstr "商号名称", star (cls1 [.ch ':', .ch '：', .sp]), .grp 1 (starL .dot),
                cls1 [.sp, .ch '\n']]
    ci := true }

/-- `/屋号[：:]\s*(.*?)[\s\n]/i` -/
def storeNamePat5 : Pat :=
  { re := rseq [rstr "屋号", cls1 [.ch '：', .ch ':'], star spc, .grp 1 (starL .dot),
                cls1 [.sp, .ch '\n']]
    ci := true }

/-- `/日付[：:]\s*(\d{4})[\/\-年](\d{1,2})[\/\-月](\d{1,2})/i` -/
def datePat1 : Pat :=
  { re := rseq [rstr "日付", cls1 [.ch '：', .ch ':'], star spc,
                .grp 1 (.rep dcl 4 (some 4) false), cls1 [.ch '/', .ch '-', .ch '年'],
                .grp 2 (.rep dcl 1 (some 2) false), cls1 [.ch '/', .ch '-', .ch '月'],
                .grp 3 (.rep dcl 1 (some 2) false)]
    ci := true }

/-- `/(\d{4})[年\/\.\-](\d{1,2})[月\/\.\-](\d{1,2})[日]?/i` -/
def datePat2 : Pat :=
  { re := rseq [.grp 1 (.rep dcl 4 (some 4) false), cls1 [.ch '年', .ch '/', .ch '.', .ch '-'],
                .grp 2 (.rep dcl 1 (some 2) false), cls1 [.ch '月', .ch '/', .ch '.', .ch '-'],
                .grp 3 (.rep dcl 1 (some 2) false), opt (cls1 [.ch '日'])]
    ci := true }

/-- `/(\d{2})[\/\.](\d{1,2})[\/\.](\d{1,2})/i` -/
def datePat3 : Pat :=
  { re := rseq [.grp 1 (.rep dcl 2 (some 2) false), cls1 [.ch '/', .ch '.'],
                .grp 2 (.rep dcl 1 (some 2) false), cls1 [.ch '/', .ch '.'],
                .grp 3 (.rep dcl 1 (some 2) false)]
    ci := true }

/-- `/(\d{1,2})月(\d{1,2})日/i` -/
def datePat4 : Pat :=
  { re := rseq [.grp 1 (.rep dcl 1 (some 2) false), .lit '月',
                .grp 2 (.rep dcl 1 (some 2) false), .lit '日']
    ci := true }

/-- `/合計[金額]*[\s:：]*[\¥\\]?(\d[\d,]+)/i` -/
def amountPat1 : Pat :=
  { re := rseq [rstr "合計", star (cls1 [.ch '金', .ch '額']), star spcol, yenOpt, .grp 1 numTok]
    ci := true }

/-- `/(?:小計|お買上げ|計)[^\\¥\d]*[\s:：]*[\¥\\]?(\d[\d,]+)/i` -/
def amountPat2 : Pat :=
  { re := rseq [ralt [rstr "小計", rstr "お買上げ", rstr "計"],
                star (ncls [.ch '\\', .ch '¥', .dig]), star spcol, yenOpt, .grp 1 numTok]
    ci := true }

/-- `/(?:total|金額)[^\\¥\d]*[\s:：]*[\¥\\]?(\d[\d,]+)/i` -/
def amountPat3 : Pat :=
  { re := rseq [ralt [rstr "total", rstr "金額"],
                star (ncls [.ch '\\', .ch '¥', .dig]), star spcol, yenOpt, .grp 1 numTok]
    ci := true }

/-- `/(?:お会計|ご請求額|請求金額)[\s:：]*[\¥\\]?(\d[\d,]+)/i` -/
def amountPat4 : Pat :=
  { re := rseq [ralt [rstr "お会計", rstr "ご請求額", rstr "請求金額"], star spcol, yenOpt,
                .grp 1 numTok]
    ci := true }

/-- `/(?:￥|¥)[\s]*(\d[\d,]+)(?:\s*$|\s*円)/im` -/
def amountPat5 : Pat :=
  { re := rseq [ralt [.lit '￥', .lit '¥'], star spc, .grp 1 numTok,
                ralt [rseq [star spc, .eos], rseq [star spc, .lit '円']]]
    ci := true, ml := true }

/-- `/(?:￥|¥)[\s]*(\d[\d,]+)/g`, the amount fallback's whole-text scan. -/
def currencyPat : Pat :=
  { re := rseq [ralt [.lit '￥', .lit '¥'], star spc, .grp 1 numTok] }

/-- `/消費税[額]?[\s:：]*[\¥\\]?(\d[\d,]+)/i` -/
def taxPat1 : Pat :=
  { re := rseq [rstr "消費税", opt (cls1 [.ch '額']), star spcol, yenOpt, .grp 1 numTok]
    ci := true }

/-- `/内税[\s:：]*[\¥\\]?(\d[\d,]+)/i` -/
def taxPat2 : Pat :=
  { re := rseq [rstr "内税", star spcol, yenOpt, .grp 1 numTok], ci := true }

/-- `/外税[\s:：]*[\¥\\]?(\d[\d,]+)/i` -/
def taxPat3 : Pat :=
  { re := rseq [rstr "外税", star spcol, yenOpt, .grp 1 numTok], ci := true }

/-- `/税額[\s:：]*[\¥\\]?(\d[\d,]+)/i` -/
def taxPat4 : Pat :=
  { re := rseq [rstr "税額", star spcol, yenOpt, .grp 1 numTok], ci := true }

/-- `/税[\s:：]*(\d[\d,]+)(?:\s*$|\s*円)/i` (no `m` flag: `$` is end of input). -/
def taxPat5 : Pat :=
  { re := rseq [rstr "税", star spcol, .grp 1 numTok,
                ralt [rseq [star spc, .eos], rseq [star spc, .lit '円']]]
    ci := true }

/-- `/(?:支払[方法い]|お支払い方法)[\s:：]*(.+?)(?:[\s\n]|$)/i` -/
def paymentPat1 : Pat :=
  { re := rseq [ralt [rseq [rstr "支払", cls1 [.ch '方', .ch '法', .ch 'い']], rstr "お支払い方法"],
                star spcol, .grp 1 (plusL .dot), ralt [cls1 [.sp, .ch '\n'], .eos]]
    ci := true }

/-- `/(クレジット|カード|デビット|現金|電子マネー|QRコード|PayPay|メルペイ|交通系|Suica|PASMO)/i` -/
def paymentPat2 : Pat :=
  { re := .grp 1 (ralt [rstr "クレジット", rstr "カード", rstr "デビット", rstr "現金",
                        rstr "電子マネー", rstr "QRコード", rstr "PayPay", rstr "メルペイ",
                        rstr "交通系", rstr "Suica", rstr "PASMO"])
    ci := true }

/-- `/(.+?)\s+(\d+)\s+[\¥\\]?(\d[\d,]+)\s+[\¥\\]?(\d[\d,]+)/`, the line-item pattern. -/
def itemPat : Pat :=
  { re := rseq [.grp 1 (plusL .dot), plus spc, .grp 2 (plus dcl), plus spc, yenOpt,
                .grp 3 numTok, plus spc, yenOpt, .grp 4 numTok] }

/-! ## Normalizer (`postprocessText`) -/

/-- `text.replace(/\s+/g, " ")`: each maximal whitespace run becomes one space.
`prev` records whether the previous input character was part of a run whose
space has already been emitted. -/
def collapseWsAux : Bool → List Char → List Char
  | _, [] => []
  | prev, c :: cs =>
    if isJsSpaceB c then
      if prev then collapseWsAux true cs else ' ' :: collapseWsAux true cs
    else c :: collapseWsAux false cs

/-- The ten full-width-digit replacements and the full-width comma and period
replacements of `postprocessText`. They are character-for-character replaces of
pairwise distinct characters whose outputs are not later inputs, so their
sequential composition is this single character map. -/
def foldChar (c : Char) : Char :=
  if c = '０' then '0' else if c = '１' then '1' else if c = '２' then '2'
  else if c = '３' then '3' else if c = '４' then '4' else if c = '５' then '5'
  else if c = '６' then '6' else if c = '７' then '7' else if c = '８' then '8'
  else if c = '９' then '9' else if c = '，' then ',' else if c = '．' then '.'
  else c

/-- `text.replace(/\n\s*\n/g, "\n")`, scanned left to right. In the `some`
mode the scanner sits inside a whitespace run that began with a newline:
`pending` holds the whitespace seen since the last newline of the run and
`found` whether a second newline (so a complete match, greedily extended to
the last newline of the run) has been seen. -/
def sqAux : Option (List Char × Bool) → List Char → List Char
  | none, [] => []
  | none, c :: cs =>
    if c = '\n' then sqAux (some ([], false)) cs else c :: sqAux none cs
  | some (pending, _), [] => '\n' :: pending.reverse
  | some (pending, found), c :: cs =>
    if c = '\n' then sqAux (some ([], true)) cs
    else if isJsSpaceB c then sqAux (some (c :: pending, found)) cs
    else '\n' :: pending.reverse ++ c :: sqAux none cs

def squeezeBlankLines (l : List Char) : List Char := sqAux none l

/-- `postprocessText`: collapse whitespace runs, fold full-width digits and
punctuation to half-width, then collapse blank lines. -/
def postprocessText (text : String) : String :=
  String.mk (squeezeBlankLines (List.map foldChar (collapseWsAux false text.data)))

/-! ## PatternField Extractor (`extractFieldWithPrompt`) -/

/-- A `PromptTemplate`: ordered patterns, optional value processor, optional
whole-text fallback. -/
structure PromptTemplate where
  fieldName : String
  patterns : List Pat
  processor : Option (String → JSVal) := none
  fallback : Option (String → JSVal) := none

/-- Apply the optional processor to a trimmed capture, as the match branch of
`extractFieldWithPrompt` does. -/
def applyProcessor (processor : Option (String → JSVal)) (value : String) : JSVal :=
  match processor with
  | some f => f value
  | none => .str value

/-- The pattern loop of `extractFieldWithPrompt`: first pattern whose
`match[1]` is truthy (present and non-empty) wins. -/
def tryPatterns (text : String) (processor : Option (String → JSVal)) : List Pat → Option JSVal
  | [] => none
  | pat :: rest =>
    match matchGroup1 pat text with
    | some v => if v ≠ "" then some (applyProcessor processor (jsTrim v)) else tryPatterns text processor rest
    | none => tryPatterns text processor rest

/-- `extractFieldWithPrompt`: run the pattern loop, else the fallback, else
`undefined`. -/
def extractFieldWithPrompt (text : String) (prompt : PromptTemplate) : JSVal :=
  match tryPatterns text prompt.processor prompt.patterns with
  | some v => v
  | none =>
    match prompt.fallback with
    | some fb => fb text
    | none => .undefined

/-! ## Field processors and fallbacks -/

/-- `text.split("\n")`. -/
def splitLinesAux : List Char → List Char → List String
  | [], cur => [String.mk cur.reverse]
  | c :: cs, cur =>
    if c = '\n' then String.mk cur.reverse :: splitLinesAux cs []
    else splitLinesAux cs (c :: cur)

def splitLines (s : String) : List String := splitLinesAux s.data []

/-- The storeName fallback: first non-blank line, trimmed, else the sentinel. -/
def storeNameFallback (text : String) : JSVal :=
  let lines := (splitLines text).filter (fun line => (jsTrim line).length > 0)
  match lines with
  | [] => .str "不明な店舗"
  | l :: _ => .str (jsTrim l)

/-- `match.split(/[年月日\/\.\-]/g)`. -/
def isDateSep (c : Char) : Bool :=
  c = '年' || c = '月' || c = '日' || c = '/' || c = '.' || c = '-'

def splitDateSepsAux : List Char → List Char → List String
  | [], cur => [String.mk cur.reverse]
  | c :: cs, cur =>
    if isDateSep c then String.mk cur.reverse :: splitDateSepsAux cs []
    else splitDateSepsAux cs (c :: cur)

def splitDateSeps (s : String) : List String := splitDateSepsAux s.data []

/-- `s.padStart(2, "0")`. -/
def padStart2 (s : String) : String :=
  if s.length ≥ 2 then s else String.mk (List.replicate (2 - s.length) '0') ++ s

/-- The value of `new Date().getFullYear()` at processing time; a fixed stand-in
for the wall clock, on which no settled claim depends. -/
def jsCurrentYear : Int := 2025

/-- The date field's value processor: split the captured value on date
separators, drop blank tokens, and rebuild a `YYYY-MM-DD` string; `null` when
fewer than two tokens remain. -/
def dateProcessor (m : String) : JSVal :=
  let parts := (splitDateSeps m).filter (fun p => (jsTrim p).length > 0)
  if parts.length ≥ 3 then
    let year := parts.getD 0 ""
    let year := if year.length = 2 then "20" ++ year else year
    .str (year ++ "-" ++ padStart2 (parts.getD 1 "") ++ "-" ++ padStart2 (parts.getD 2 ""))
  else if parts.length = 2 then
    .str (toString jsCurrentYear ++ "-" ++ padStart2 (parts.getD 0 "") ++ "-" ++
          padStart2 (parts.getD 1 ""))
  else .null

/-- The amount/taxAmount value processor: `parseInt(value.replace(/,/g, ""), 10)`. -/
def amountProcessor (value : String) : JSVal := jsParseInt (stripCommas value)

/-- Binary `Math.max` on numbers (`NaN` absorbs). -/
def jsNumMax (a b : JSVal) : JSVal :=
  match a, b with
  | .num x, .num y => .num (max x y)
  | _, _ => .nan

/-- `Math.max(...l)` for a non-empty list (the empty case, `-Infinity` in
JavaScript, is unreachable at the one call site, which guards on length). -/
def jsMathMax : List JSVal → JSVal
  | [] => .num 0
  | v :: vs => vs.foldl jsNumMax v

/-- The amount fallback: scan the whole text for currency-marked numbers and
take the maximum, else 0. -/
def amountFallback (text : String) : JSVal :=
  let currencyValues := jsMatchAll currencyPat text
  match currencyValues with
  | [] => .num 0
  | vs => jsMathMax (vs.map (fun v => jsParseInt (stripCommas (keepDigitComma v))))

/-! ## The five prompt templates -/

def storeNamePrompt : PromptTemplate :=
  { fieldName := "storeName"
    patterns := [storeNamePat1, storeNamePat2, storeNamePat3, storeNamePat4, storeNamePat5]
    fallback := some storeNameFallback }

def datePrompt : PromptTemplate :=
  { fieldName := "date"
    patterns := [datePat1, datePat2, datePat3, datePat4]
    processor := some dateProcessor }

def amountPrompt : PromptTemplate :=
  { fieldName := "amount"
    patterns := [amountPat1, amountPat2, amountPat3, amountPat4, amountPat5]
    processor := some amountProcessor
    fallback := some amountFallback }

def taxAmountPrompt : PromptTemplate :=
  { fieldName := "taxAmount"
    patterns := [taxPat1, taxPat2, taxPat3, taxPat4, taxPat5]
    processor := some amountProcessor }

def paymentMethodPrompt : PromptTemplate :=
  { fieldName := "paymentMethod"
    patterns := [paymentPat1, paymentPat2] }

def japaneseReceiptPrompts : List PromptTemplate :=
  [storeNamePrompt, datePrompt, amountPrompt, taxAmountPrompt, paymentMethodPrompt]

/-! ## Line-item parser (`extractItems`) -/

structure ReceiptItem where
  name : String
  quantity : JSVal
  unitPrice : JSVal
  totalPrice : JSVal
deriving DecidableEq, Repr

def extractItems (text : String) : List ReceiptItem :=
  (splitLines text).filterMap (fun line =>
    match searchCaps itemPat line with
    | none => none
    | some caps =>
      some { name := jsTrim ((lookupCap 1 caps).getD "")
             quantity := jsParseInt ((lookupCap 2 caps).getD "")
             unitPrice := jsParseInt (stripCommas ((lookupCap 3 caps).getD ""))
             totalPrice := jsParseInt (stripCommas ((lookupCap 4 caps).getD "")) })

/-! ## Category classifier and account mapper -/

/-- `storeName.toLowerCase()` (ASCII case folding; the keyword sets below are
ASCII and kana/kanji, which JavaScript's full Unicode folding treats the same
way). -/
def jsToLowerCase (s : String) : String := String.mk (s.data.map Char.toLower)

/-- `.test` of an alternation of plain literals is substring containment of
one of the alternatives. -/
def containsSubAux : List Char → List Char → Bool
  | _, [] => true
  | [], _ :: _ => false
  | a :: as, b :: bs => a = b && containsSubAux as bs

def containsSub : List Char → List Char → Bool
  | hay, needle =>
    containsSubAux hay needle ||
      match hay with
      | [] => false
      | _ :: t => containsSub t needle

def testAny (kws : List String) (s : String) : Bool :=
  kws.any (fun k => containsSub s.data k.data)

def categorizeStore (storeName : String) : String :=
  let lowerStoreName := jsToLowerCase storeName
  if testAny ["restaurant", "cafe", "coffee", "レストラン", "カフェ", "食堂", "居酒屋", "ダイニング"]
      lowerStoreName then "飲食"
  else if testAny ["market", "super", "コンビニ", "マート", "スーパー", "ストア"] lowerStoreName then
    "食料品"
  else if testAny ["gas", "petrol", "ガソリン", "スタンド", "石油"] lowerStoreName then "交通費"
  else if testAny ["hotel", "ホテル", "旅館", "inn"] lowerStoreName then "宿泊"
  else if testAny ["stationery", "book", "文房具", "本", "書店"] lowerStoreName then "文具・書籍"
  else if testAny ["pharma", "drug", "医薬", "薬局", "ドラッグ"] lowerStoreName then "医療・健康"
  else "その他"

def mapCategoryToAccount (category : String) : String :=
  let mapping : List (String × String) :=
    [("飲食", "会議費"), ("食料品", "消耗品費"), ("交通費", "旅費交通費"), ("宿泊", "旅費交通費"),
     ("文具・書籍", "消耗品費"), ("医療・健康", "福利厚生費"), ("その他", "雑費")]
  match (mapping.find? (fun kv => kv.1 == category)).map (fun kv => kv.2) with
  | some v => v
  | none => "雑費"

/-! ## Receipt assembler (`parseReceiptText`) -/

structure Receipt where
  id : String
  storeName : JSVal
  date : JSVal
  amount : JSVal
  items : List ReceiptItem
  taxAmount : JSVal
  paymentMethod : JSVal
  rawText : String
  category : String
deriving DecidableEq, Repr

/-- `path.basename(p, path.extname(p))` for the simple path shapes the driver
produces (`dir/name.ext` with `/` separators). -/
def dropExtAux : List Char → Option (List Char)
  | [] => none
  | '.' :: rest => if rest.isEmpty then none else some rest
  | _ :: rest => dropExtAux rest

def splitSlashAux : List Char → List Char → List String
  | [], cur => [String.mk cur.reverse]
  | c :: cs, cur =>
    if c = '/' then String.mk cur.reverse :: splitSlashAux cs []
    else splitSlashAux cs (c :: cur)

def basenameStem (p : String) : String :=
  let base := (splitSlashAux p.data []).getLastD ""
  match dropExtAux base.data.reverse with
  | some ys => String.mk ys.reverse
  | none => base

/-- The string a JavaScript value shows as when coerced (only the `str` case
is reachable at the one coercion site in `parseReceiptText`). -/
def jsValToString : JSVal → String
  | .str s => s
  | .num n => toString n
  | .null => "null"
  | .undefined => "undefined"
  | .nan => "NaN"

/-- `parseReceiptText`: normalize, extract each field with its prompt, extract
items, and assemble the record with the `||`-sentinel defaults. -/
def parseReceiptText (text : String) (filePath : String) : Receipt :=
  let processedText := postprocessText text
  let storeNameV := extractFieldWithPrompt processedText storeNamePrompt
  let dateV := extractFieldWithPrompt processedText datePrompt
  let amountV := extractFieldWithPrompt processedText amountPrompt
  let taxAmountV := extractFieldWithPrompt processedText taxAmountPrompt
  let paymentMethodV := extractFieldWithPrompt processedText paymentMethodPrompt
  { id := basenameStem filePath
    storeName := jsOr storeNameV (.str "不明な店舗")
    date := jsOr dateV (.str "日付不明")
    amount := jsOr amountV (.num 0)
    items := extractItems processedText
    taxAmount := taxAmountV
    paymentMethod := paymentMethodV
    rawText := processedText
    category := categorizeStore (jsValToString (jsOr storeNameV (.str ""))) }

/-- The text-handling tail of `parseReceiptImage`: throw when the OCR
collaborator returned no text annotations, otherwise parse
`detections[0].description || ""`. Each annotation's optional `description`
is modelled as an `Option String`. -/
def handleDetections (detections : Option (List (Option String))) (imagePath : String) :
    Except String Receipt :=
  match detections with
  | none => .error "テキストが検出されませんでした"
  | some [] => .error "テキストが検出されませんでした"
  | some (d :: _) => .ok (parseReceiptText (d.getD "") imagePath)

/-! ## Accounting export (`exportToAccountingFormat` / `saveAsAccountingCsv`) -/

/-- One record of the accounting CSV; fields carry the source's Japanese keys:
`dateCol` is 日付, `descCol` is 内容, `accountCol` is 勘定科目, `amountCol` is
金額, `noteCol` is 備考, `taxClassCol` is 税区分, `taxCol` is 税額. -/
structure AccountingRow where
  dateCol : JSVal
  descCol : JSVal
  accountCol : String
  amountCol : JSVal
  noteCol : String
  taxClassCol : String
  taxCol : JSVal
deriving DecidableEq, Repr

/-- `Math.floor(n * 0.1)` on the integer amounts the pipeline produces. -/
def jsFloorTenth : JSVal → JSVal
  | .num n => .num (Int.fdiv n 10)
  | _ => .nan

/-- One row of the accounting CSV. -/
def accountingRow (receipt : Receipt) : AccountingRow :=
  { dateCol := receipt.date
    descCol := receipt.storeName
    accountCol := mapCategoryToAccount (if receipt.category = "" then "その他" else receipt.category)
    amountCol := receipt.amount
    noteCol := "領収書ID: " ++ receipt.id
    taxClassCol := "課税"
    taxCol := jsOr receipt.taxAmount (jsFloorTenth receipt.amount) }

def exportToAccountingFormat (receipts : List Receipt) : List AccountingRow :=
  receipts.map accountingRow

/-! ## Auxiliary definitions used by the claim statements -/

/-- Whether a runtime value is a string containing `kw`. -/
def jsvalStrContains (v : JSVal) (kw : String) : Bool :=
  match v with
  | .str s => containsSub s.data kw.data
  | _ => false

/-- The closed label set of the category classifier. -/
def categoryLabels : List String :=
  ["飲食", "食料品", "交通費", "宿泊", "文具・書籍", "医療・健康", "その他"]

/-- The end-to-end scenario text of the spec: a store-name line followed by
the date, total, tax and payment-method lines. -/
def c1text : String :=
  "店名:A\n日付：2024/03/05\n合計金額：¥3,300\n消費税：¥300\n支払方法：クレジット"

/-- A concrete receipt used to instantiate the export theorem. -/
def c8sample : Receipt :=
  { id := "r77", storeName := .str "テスト", date := .str "2024-03-05", amount := .num 3300,
    items := [], taxAmount := .num 300, paymentMethod := .undefined, rawText := "", category := "その他" }

/-- Modelled from the spec: the amount fallback "scans the whole text for
every currency-marked number token, parses each (stripping thousands
separators), and returns the maximum value found; if none exist, returns 0".
Stated for comparison against the source's `amountFallback`. -/
def specAmountFallback (text : String) : JSVal :=
  let tokens := jsMatchAll currencyPat text
  let values := tokens.map (fun v => jsParseInt (stripCommas (keepDigitComma v)))
  match values with
  | [] => .num 0
  | v :: vs => vs.foldl jsNumMax v

/-! ## Metatheory of the matcher: consumed length and capture shapes -/

/-- The least number of characters a regex can consume. -/
def minLen : RE → Nat
  | .eps => 0
  | .lit _ => 1
  | .cls _ _ => 1
  | .dot => 1
  | .seq a b => minLen a + minLen b
  | .alt a b => min (minLen a) (minLen b)
  | .rep r lo _ _ => lo * minLen r
  | .grp _ r => minLen r
  | .eos => 0

/-- The minimum consumed lengths of the bodies of every capture group numbered
`i` occurring in a regex. -/
def groupMins (re : RE) (i : Nat) : List Nat :=
  match re with
  | .seq a b => groupMins a i ++ groupMins b i
  | .alt a b => groupMins a i ++ groupMins b i
  | .rep r _ _ _ => groupMins r i
  | .grp j r => (if i = j then [minLen r] else []) ++ groupMins r i
  | _ => []

theorem head?_mem {α : Type} {l : List α} {a : α} (h : l.head? = some a) : a ∈ l := by
  cases l with
  | nil => simp at h
  | cons x xs =>
    simp only [List.head?_cons, Option.some.injEq] at h
    exact h ▸ List.mem_cons_self x xs

/-- Every matcher result sits `k` characters further into the input, for some
`k` bounded by the remaining length, and its suffix is the corresponding drop. -/
theorem reList_shift (ci ml : Bool) :
    ∀ (fuel : Nat) (re : RE) (st st' : MSt), st' ∈ reList ci ml fuel re st →
      ∃ k, k ≤ st.suff.length ∧ st'.pos = st.pos + k ∧ st'.suff = st.suff.drop k := by
  intro fuel
  induction fuel with
  | zero => intro re st st' h; simp [reList] at h
  | succ fuel ih =>
    intro re st st' h
    cases re with
    | eps =>
      simp only [reList, List.mem_singleton] at h
      exact ⟨0, Nat.zero_le _, by simp [h], by simp [h]⟩
    | lit c =>
      cases hs : st.suff with
      | nil => rw [reList] at h; simp [hs] at h
      | cons x rest =>
        rw [reList] at h
        simp only [hs] at h
        by_cases hcc : charEq ci x c = true
        · rw [if_pos hcc] at h
          simp only [List.mem_singleton] at h
          exact ⟨1, by simp [hs], by simp [h], by simp [h, hs]⟩
        · rw [if_neg hcc] at h; simp at h
    | cls neg items =>
      cases hs : st.suff with
      | nil => rw [reList] at h; simp [hs] at h
      | cons x rest =>
        rw [reList] at h
        simp only [hs] at h
        by_cases hcc : clsMatch ci items x ≠ neg
        · rw [if_pos hcc] at h
          simp only [List.mem_singleton] at h
          exact ⟨1, by simp [hs], by simp [h], by simp [h, hs]⟩
        · rw [if_neg hcc] at h; simp at h
    | dot =>
      cases hs : st.suff with
      | nil => rw [reList] at h; simp [hs] at h
      | cons x rest =>
        rw [reList] at h
        simp only [hs] at h
        by_cases hcc : isJsNewline x = true
        · rw [if_pos hcc] at h; simp at h
        · rw [if_neg hcc] at h
          simp only [List.mem_singleton] at h
          exact ⟨1, by simp [hs], by simp [h], by simp [h, hs]⟩
    | seq a b =>
      simp only [reList, List.mem_flatMap] at h
      rcases h with ⟨st1, h1, h2⟩
      rcases ih a st st1 h1 with ⟨k1, hk1, hp1, hs1⟩
      rcases ih b st1 st' h2 with ⟨k2, hk2, hp2, hs2⟩
      rw [hs1, List.length_drop] at hk2
      refine ⟨k1 + k2, by omega, by omega, ?_⟩
      rw [hs2, hs1, List.drop_drop, Nat.add_comm]
    | alt a b =>
      simp only [reList, List.mem_append] at h
      rcases h with h | h
      · exact ih a st st' h
      · exact ih b st st' h
    | grp j r =>
      simp only [reList, List.mem_map] at h
      rcases h with ⟨st1, h1, heq⟩
      rcases ih r st st1 h1 with ⟨k, hk, hp, hs⟩
      exact ⟨k, hk, by rw [← heq]; exact hp, by rw [← heq]; exact hs⟩
    | eos =>
      cases hs : st.suff with
      | nil =>
        rw [reList] at h
        simp only [hs, List.mem_singleton] at h
        exact ⟨0, Nat.zero_le _, by simp [h], by simp [h, hs]⟩
      | cons x rest =>
        rw [reList] at h
        simp only [hs] at h
        by_cases hcc : (ml && isJsNewline x) = true
        · rw [if_pos hcc] at h
          simp only [List.mem_singleton] at h
          exact ⟨0, Nat.zero_le _, by simp [h], by simp [h, hs]⟩
        · rw [if_neg hcc] at h; simp at h
    | rep r lo hi lz =>
      simp only [reList] at h
      by_cases hlo : lo = 0
      · subst hlo
        rw [if_neg (by simp)] at h
        have hcase :
            st' = st ∨ st' ∈ (reList ci ml fuel r st).flatMap
              (fun st1 =>
                if st.pos < st1.pos then
                  reList ci ml fuel (.rep r 0 (hi.map (· - 1)) lz) st1
                else []) := by
          cases hi with
          | none =>
            cases lz <;> simp only [if_pos, if_neg, Bool.false_eq_true, if_false, if_true,
              List.mem_cons, List.mem_append, List.mem_singleton] at h <;> tauto
          | some n =>
            cases n with
            | zero => simp only [List.mem_singleton] at h; exact Or.inl h
            | succ n =>
              cases lz <;> simp only [if_pos, if_neg, Bool.false_eq_true, if_false, if_true,
                List.mem_cons, List.mem_append, List.mem_singleton] at h <;> tauto
        rcases hcase with rfl | hmore
        · exact ⟨0, Nat.zero_le _, by simp, by simp⟩
        · rcases List.mem_flatMap.mp hmore with ⟨st1, h1, h2⟩
          by_cases hlt : st.pos < st1.pos
          · rw [if_pos hlt] at h2
            rcases ih r st st1 h1 with ⟨k1, hk1, hp1, hs1⟩
            rcases ih _ st1 st' h2 with ⟨k2, hk2, hp2, hs2⟩
            rw [hs1, List.length_drop] at hk2
            refine ⟨k1 + k2, by omega, by omega, ?_⟩
            rw [hs2, hs1, List.drop_drop, Nat.add_comm]
          · rw [if_neg hlt] at h2; simp at h2
      · rw [if_pos (by simpa using hlo)] at h
        rcases List.mem_flatMap.mp h with ⟨st1, h1, h2⟩
        rcases ih r st st1 h1 with ⟨k1, hk1, hp1, hs1⟩
        rcases ih _ st1 st' h2 with ⟨k2, hk2, hp2, hs2⟩
        rw [hs1, List.length_drop] at hk2
        refine ⟨k1 + k2, by omega, by omega, ?_⟩
        rw [hs2, hs1, List.drop_drop, Nat.add_comm]

/-- Every matcher result consumes at least `minLen re` characters. -/
theorem reList_minLen (ci ml : Bool) :
    ∀ (fuel : Nat) (re : RE) (st st' : MSt), st' ∈ reList ci ml fuel re st →
      st.pos + minLen re ≤ st'.pos := by
  intro fuel
  induction fuel with
  | zero => intro re st st' h; simp [reList] at h
  | succ fuel ih =>
    intro re st st' h
    cases re with
    | eps =>
      simp only [reList, List.mem_singleton] at h
      simp [h, minLen]
    | lit c =>
      cases hs : st.suff with
      | nil => rw [reList] at h; simp [hs] at h
      | cons x rest =>
        rw [reList] at h
        simp only [hs] at h
        by_cases hcc : charEq ci x c = true
        · rw [if_pos hcc] at h
          simp only [List.mem_singleton] at h
          simp [h, minLen]
        · rw [if_neg hcc] at h; simp at h
    | cls neg items =>
      cases hs : st.suff with
      | nil => rw [reList] at h; simp [hs] at h
      | cons x rest =>
        rw [reList] at h
        simp only [hs] at h
        by_cases hcc : clsMatch ci items x ≠ neg
        · rw [if_pos hcc] at h
          simp only [List.mem_singleton] at h
          simp [h, minLen]
        · rw [if_neg hcc] at h; simp at h
    | dot =>
      cases hs : st.suff with
      | nil => rw [reList] at h; simp [hs] at h
      | cons x rest =>
        rw [reList] at h
        simp only [hs] at h
        by_cases hcc : isJsNewline x = true
        · rw [if_pos hcc] at h; simp at h
        · rw [if_neg hcc] at h
          simp only [List.mem_singleton] at h
          simp [h, minLen]
    | seq a b =>
      simp only [reList, List.mem_flatMap] at h
      rcases h with ⟨st1, h1, h2⟩
      have ha := ih a st st1 h1
      have hb := ih b st1 st' h2
      simp only [minLen]
      omega
    | alt a b =>
      simp only [reList, List.mem_append] at h
      simp only [minLen]
      rcases h with h | h
      · have := ih a st st' h
        have hle : min (minLen a) (minLen b) ≤ minLen a := Nat.min_le_left _ _
        omega
      · have := ih b st st' h
        have hle : min (minLen a) (minLen b) ≤ minLen b := Nat.min_le_right _ _
        omega
    | grp j r =>
      simp only [reList, List.mem_map] at h
      rcases h with ⟨st1, h1, heq⟩
      have := ih r st st1 h1
      simp only [minLen]
      rw [← heq]
      exact this
    | eos =>
      cases hs : st.suff with
      | nil =>
        rw [reList] at h
        simp only [hs, List.mem_singleton] at h
        simp [h, minLen]
      | cons x rest =>
        rw [reList] at h
        simp only [hs] at h
        by_cases hcc : (ml && isJsNewline x) = true
        · rw [if_pos hcc] at h
          simp only [List.mem_singleton] at h
          simp [h, minLen]
        · rw [if_neg hcc] at h; simp at h
    | rep r lo hi lz =>
      by_cases hlo : lo = 0
      · subst hlo
        rcases reList_shift ci ml (fuel + 1) (.rep r 0 hi lz) st st' h with ⟨k, _, hp, _⟩
        simp only [minLen, Nat.zero_mul]
        omega
      · simp only [reList] at h
        rw [if_pos (by simpa using hlo)] at h
        rcases List.mem_flatMap.mp h with ⟨st1, h1, h2⟩
        have ha := ih r st st1 h1
        have hb := ih _ st1 st' h2
        simp only [minLen] at ha hb ⊢
        have hmul : minLen r + (lo - 1) * minLen r = lo * minLen r := by
          cases lo with
          | zero => exact absurd rfl hlo
          | succ n => simp [Nat.succ_mul]; omega
        omega

/-- Captures in a matcher result either were already present in the starting
state or were produced by a group of the regex, in which case they are at
least as long as that group's minimum consumed length. -/
theorem reList_caps (ci ml : Bool) :
    ∀ (fuel : Nat) (re : RE) (st st' : MSt), st' ∈ reList ci ml fuel re st →
      ∀ i v, lookupCap i st'.caps = some v →
        lookupCap i st.caps = some v ∨ ∃ m ∈ groupMins re i, m ≤ v.length := by
  intro fuel
  induction fuel with
  | zero => intro re st st' h; simp [reList] at h
  | succ fuel ih =>
    intro re st st' h i v hv
    cases re with
    | eps =>
      simp only [reList, List.mem_singleton] at h
      subst h
      exact Or.inl hv
    | lit c =>
      cases hs : st.suff with
      | nil => rw [reList] at h; simp [hs] at h
      | cons x rest =>
        rw [reList] at h
        simp only [hs] at h
        by_cases hcc : charEq ci x c = true
        · rw [if_pos hcc] at h
          simp only [List.mem_singleton] at h
          subst h
          exact Or.inl hv
        · rw [if_neg hcc] at h; simp at h
    | cls neg items =>
      cases hs : st.suff with
      | nil => rw [reList] at h; simp [hs] at h
      | cons x rest =>
        rw [reList] at h
        simp only [hs] at h
        by_cases hcc : clsMatch ci items x ≠ neg
        · rw [if_pos hcc] at h
          simp only [List.mem_singleton] at h
          subst h
          exact Or.inl hv
        · rw [if_neg hcc] at h; simp at h
    | dot =>
      cases hs : st.suff with
      | nil => rw [reList] at h; simp [hs] at h
      | cons x rest =>
        rw [reList] at h
        simp only [hs] at h
        by_cases hcc : isJsNewline x = true
        · rw [if_pos hcc] at h; simp at h
        · rw [if_neg hcc] at h
          simp only [List.mem_singleton] at h
          subst h
          exact Or.inl hv
    | seq a b =>
      simp only [reList, List.mem_flatMap] at h
      rcases h with ⟨st1, h1, h2⟩
      rcases ih b st1 st' h2 i v hv with h' | ⟨m, hm, hlen⟩
      · rcases ih a st st1 h1 i v h' with h'' | ⟨m, hm, hlen⟩
        · exact Or.inl h''
        · exact Or.inr ⟨m, by simp only [groupMins, List.mem_append]; exact Or.inl hm, hlen⟩
      · exact Or.inr ⟨m, by simp only [groupMins, List.mem_append]; exact Or.inr hm, hlen⟩
    | alt a b =>
      simp only [reList, List.mem_append] at h
      rcases h with h | h
      · rcases ih a st st' h i v hv with h' | ⟨m, hm, hlen⟩
        · exact Or.inl h'
        · exact Or.inr ⟨m, by simp only [groupMins, List.mem_append]; exact Or.inl hm, hlen⟩
      · rcases ih b st st' h i v hv with h' | ⟨m, hm, hlen⟩
        · exact Or.inl h'
        · exact Or.inr ⟨m, by simp only [groupMins, List.mem_append]; exact Or.inr hm, hlen⟩
    | grp j r =>
      simp only [reList, List.mem_map] at h
      rcases h with ⟨st1, h1, heq⟩
      by_cases hij : j = i
      · subst hij
        have hcap : lookupCap j st'.caps =
            some (String.mk (st.suff.take (st1.pos - st.pos))) := by
          rw [← heq]
          simp [lookupCap]
        rw [hcap] at hv
        have hveq : v = String.mk (st.suff.take (st1.pos - st.pos)) := by
          exact (Option.some.injEq _ _ ▸ hv).symm
        rcases reList_shift ci ml fuel r st st1 h1 with ⟨k, hk, hp, _⟩
        have hmin := reList_minLen ci ml fuel r st st1 h1
        refine Or.inr ⟨minLen r, by simp [groupMins], ?_⟩
        have hklen : (st.suff.take (st1.pos - st.pos)).length = st1.pos - st.pos := by
          rw [List.length_take]
          omega
        have : v.length = st1.pos - st.pos := by
          rw [hveq]
          exact hklen
        omega
      · have hcap : lookupCap i st'.caps = lookupCap i st1.caps := by
          rw [← heq]
          simp only [lookupCap, List.find?]
          rw [show ((j, String.mk (st.suff.take (st1.pos - st.pos))).1 == i) = false by
            simpa using hij]
        rw [hcap] at hv
        rcases ih r st st1 h1 i v hv with h' | ⟨m, hm, hlen⟩
        · exact Or.inl h'
        · refine Or.inr ⟨m, ?_, hlen⟩
          simp only [groupMins, List.mem_append]
          exact Or.inr hm
    | eos =>
      cases hs : st.suff with
      | nil =>
        rw [reList] at h
        simp only [hs, List.mem_singleton] at h
        subst h
        exact Or.inl hv
      | cons x rest =>
        rw [reList] at h
        simp only [hs] at h
        by_cases hcc : (ml && isJsNewline x) = true
        · rw [if_pos hcc] at h
          simp only [List.mem_singleton] at h
          subst h
          exact Or.inl hv
        · rw [if_neg hcc] at h; simp at h
    | rep r lo hi lz =>
      simp only [reList] at h
      by_cases hlo : lo = 0
      · subst hlo
        rw [if_neg (by simp)] at h
        have hcase :
            st' = st ∨ st' ∈ (reList ci ml fuel r st).flatMap
              (fun st1 =>
                if st.pos < st1.pos then
                  reList ci ml fuel (.rep r 0 (hi.map (· - 1)) lz) st1
                else []) := by
          cases hi with
          | none =>
            cases lz <;> simp only [if_pos, if_neg, Bool.false_eq_true, if_false, if_true,
              List.mem_cons, List.mem_append, List.mem_singleton] at h <;> tauto
          | some n =>
            cases n with
            | zero => simp only [List.mem_singleton] at h; exact Or.inl h
            | succ n =>
              cases lz <;> simp only [if_pos, if_neg, Bool.false_eq_true, if_false, if_true,
                List.mem_cons, List.mem_append, List.mem_singleton] at h <;> tauto
        rcases hcase with rfl | hmore
        · exact Or.inl hv
        · rcases List.mem_flatMap.mp hmore with ⟨st1, h1, h2⟩
          by_cases hlt : st.pos < st1.pos
          · rw [if_pos hlt] at h2
            rcases ih _ st1 st' h2 i v hv with h' | ⟨m, hm, hlen⟩
            · rcases ih r st st1 h1 i v h' with h'' | ⟨m, hm, hlen⟩
              · exact Or.inl h''
              · exact Or.inr ⟨m, hm, hlen⟩
            · exact Or.inr ⟨m, hm, hlen⟩
          · rw [if_neg hlt] at h2; simp at h2
      · rw [if_pos (by simpa using hlo)] at h
        rcases List.mem_flatMap.mp h with ⟨st1, h1, h2⟩
        rcases ih _ st1 st' h2 i v hv with h' | ⟨m, hm, hlen⟩
        · rcases ih r st st1 h1 i v h' with h'' | ⟨m, hm, hlen⟩
          · exact Or.inl h''
          · exact Or.inr ⟨m, hm, hlen⟩
        · exact Or.inr ⟨m, hm, hlen⟩

/-- A successful unanchored search is a matcher result from some suffix, with
an empty starting capture list. -/
theorem searchAux_mem (ci ml : Bool) (fuel : Nat) (re : RE) :
    ∀ (s : List Char) (pos : Nat) (st : MSt), searchAux ci ml fuel re s pos = some st →
      ∃ s2 pos2, st ∈ reList ci ml fuel (.grp 0 re) ⟨s2, pos2, []⟩ := by
  intro s
  induction s with
  | nil =>
    intro pos st h
    rw [searchAux] at h
    exact ⟨[], pos, head?_mem h⟩
  | cons c rest ih =>
    intro pos st h
    rw [searchAux] at h
    cases hh : (reList ci ml fuel (.grp 0 re) ⟨c :: rest, pos, []⟩).head? with
    | some st0 =>
      simp only [hh, Option.some.injEq] at h
      exact ⟨c :: rest, pos, h ▸ head?_mem hh⟩
    | none =>
      simp only [hh] at h
      exact ih (pos + 1) st h

/-- Any captured group value is at least as long as some group body's minimum
consumed length. -/
theorem matchGroupN_minLen (p : Pat) (n : Nat) (text : String) (v : String)
    (h : matchGroupN p n text = some v) :
    ∃ m ∈ groupMins (RE.grp 0 p.re) n, m ≤ v.length := by
  cases hs : searchAux p.ci p.ml (fuelFor text.data) p.re text.data 0 with
  | none =>
    rw [matchGroupN, searchCaps, hs] at h
    simp at h
  | some st =>
    rw [matchGroupN, searchCaps, hs] at h
    have h' : lookupCap n st.caps = some v := by simpa using h
    rcases searchAux_mem p.ci p.ml (fuelFor text.data) p.re text.data 0 st hs with
      ⟨s2, pos2, hmem⟩
    rcases reList_caps p.ci p.ml (fuelFor text.data) (.grp 0 p.re) ⟨s2, pos2, []⟩ st hmem n v h'
      with hbad | good
    · simp [lookupCap] at hbad
    · exact good

/-- Specialization: a pattern all of whose groups numbered `n` wrap the digit
token `\d[\d,]+` only ever captures at least two characters. -/
theorem capMinTwo (p : Pat) (n : Nat) (hGM : groupMins (RE.grp 0 p.re) n = [2])
    (text v : String) (h : matchGroupN p n text = some v) : 2 ≤ v.length := by
  rcases matchGroupN_minLen p n text v h with ⟨m, hm, hlen⟩
  rw [hGM] at hm
  simp only [List.mem_singleton] at hm
  omega

/-- The numeric rule patterns of the amount and taxAmount fields, plus the
amount fallback's scan pattern. -/
def numericPats : List Pat :=
  [amountPat1, amountPat2, amountPat3, amountPat4, amountPat5,
   taxPat1, taxPat2, taxPat3, taxPat4, taxPat5, currencyPat]

/-! ## Lemmas about the normalizer -/

theorem isJsSpaceB_space : isJsSpaceB ' ' = true := rfl

theorem isJsSpaceB_newline : isJsSpaceB '\n' = true := rfl

theorem collapseWsAux_cons_space (prev : Bool) (c : Char) (cs : List Char)
    (hc : isJsSpaceB c = true) :
    collapseWsAux prev (c :: cs) =
      if prev then collapseWsAux true cs else ' ' :: collapseWsAux true cs := by
  simp [collapseWsAux, hc]

theorem collapseWsAux_cons_other (prev : Bool) (c : Char) (cs : List Char)
    (hc : isJsSpaceB c = false) :
    collapseWsAux prev (c :: cs) = c :: collapseWsAux false cs := by
  simp [collapseWsAux, hc]

theorem collapseWsAux_idem (cs : List Char) :
    ∀ prev, collapseWsAux prev (collapseWsAux prev cs) = collapseWsAux prev cs := by
  induction cs with
  | nil => intro prev; rfl
  | cons c cs ih =>
    intro prev
    cases hc : isJsSpaceB c with
    | true =>
      cases prev with
      | true =>
        rw [collapseWsAux_cons_space true c cs hc, if_pos rfl]
        exact ih true
      | false =>
        rw [collapseWsAux_cons_space false c cs hc, if_neg (by decide),
          collapseWsAux_cons_space false ' ' _ isJsSpaceB_space, if_neg (by decide), ih true]
    | false =>
      rw [collapseWsAux_cons_other prev c cs hc, collapseWsAux_cons_other prev c _ hc, ih false]

theorem collapseWsAux_no_newline (cs : List Char) :
    ∀ prev, '\n' ∉ collapseWsAux prev cs := by
  induction cs with
  | nil => intro prev; simp [collapseWsAux]
  | cons c cs ih =>
    intro prev
    cases hc : isJsSpaceB c with
    | true =>
      cases prev with
      | true =>
        rw [collapseWsAux_cons_space true c cs hc, if_pos rfl]
        exact ih true
      | false =>
        rw [collapseWsAux_cons_space false c cs hc, if_neg (by decide)]
        intro hmem
        rcases List.mem_cons.mp hmem with h | h
        · exact absurd h (by decide)
        · exact ih true h
    | false =>
      rw [collapseWsAux_cons_other prev c cs hc]
      intro hmem
      rcases List.mem_cons.mp hmem with h | h
      · subst h
        exact absurd hc (by decide)
      · exact ih false h

/-- The three facts about `foldChar` the idempotence argument needs: it is
idempotent, it does not change whether a character is whitespace, and it never
produces a newline from a non-newline. -/
theorem foldChar_props (c : Char) :
    foldChar (foldChar c) = foldChar c ∧ isJsSpaceB (foldChar c) = isJsSpaceB c ∧
      (foldChar c = '\n' → c = '\n') := by
  by_cases h0 : c = '０'
  · subst h0; exact ⟨rfl, rfl, by decide⟩
  by_cases h1 : c = '１'
  · subst h1; exact ⟨rfl, rfl, by decide⟩
  by_cases h2 : c = '２'
  · subst h2; exact ⟨rfl, rfl, by decide⟩
  by_cases h3 : c = '３'
  · subst h3; exact ⟨rfl, rfl, by decide⟩
  by_cases h4 : c = '４'
  · subst h4; exact ⟨rfl, rfl, by decide⟩
  by_cases h5 : c = '５'
  · subst h5; exact ⟨rfl, rfl, by decide⟩
  by_cases h6 : c = '６'
  · subst h6; exact ⟨rfl, rfl, by decide⟩
  by_cases h7 : c = '７'
  · subst h7; exact ⟨rfl, rfl, by decide⟩
  by_cases h8 : c = '８'
  · subst h8; exact ⟨rfl, rfl, by decide⟩
  by_cases h9 : c = '９'
  · subst h9; exact ⟨rfl, rfl, by decide⟩
  by_cases h10 : c = '，'
  · subst h10; exact ⟨rfl, rfl, by decide⟩
  by_cases h11 : c = '．'
  · subst h11; exact ⟨rfl, rfl, by decide⟩
  have he : foldChar c = c := by
    simp [foldChar, h0, h1, h2, h3, h4, h5, h6, h7, h8, h9, h10, h11]
  refine ⟨?_, ?_, ?_⟩ <;> rw [he]
  · exact he
  · intro h
    exact h

theorem foldChar_idem (c : Char) : foldChar (foldChar c) = foldChar c :=
  (foldChar_props c).1

theorem foldChar_space (c : Char) : isJsSpaceB (foldChar c) = isJsSpaceB c :=
  (foldChar_props c).2.1

theorem foldChar_newline (c : Char) : foldChar c = '\n' → c = '\n' :=
  (foldChar_props c).2.2

theorem collapseWsAux_map_foldChar (l : List Char) :
    ∀ prev, collapseWsAux prev (List.map foldChar l) = List.map foldChar (collapseWsAux prev l) := by
  induction l with
  | nil => intro prev; rfl
  | cons c cs ih =>
    intro prev
    rw [List.map_cons]
    cases hc : isJsSpaceB c with
    | true =>
      have hfc : isJsSpaceB (foldChar c) = true := by rw [foldChar_space, hc]
      cases prev with
      | true =>
        rw [collapseWsAux_cons_space true (foldChar c) _ hfc, if_pos rfl,
          collapseWsAux_cons_space true c cs hc, if_pos rfl]
        exact ih true
      | false =>
        rw [collapseWsAux_cons_space false (foldChar c) _ hfc, if_neg (by decide),
          collapseWsAux_cons_space false c cs hc, if_neg (by decide), List.map_cons, ih true]
        rfl
    | false =>
      have hfc : isJsSpaceB (foldChar c) = false := by rw [foldChar_space, hc]
      rw [collapseWsAux_cons_other prev (foldChar c) _ hfc,
        collapseWsAux_cons_other prev c cs hc, List.map_cons, ih false]

theorem map_foldChar_idem (l : List Char) :
    List.map foldChar (List.map foldChar l) = List.map foldChar l := by
  induction l with
  | nil => rfl
  | cons c cs ih => simp only [List.map_cons, foldChar_idem, ih]

theorem map_foldChar_no_newline (l : List Char) (h : '\n' ∉ l) :
    '\n' ∉ List.map foldChar l := by
  intro hmem
  rcases List.mem_map.mp hmem with ⟨x, hx, hfx⟩
  exact h (foldChar_newline x hfx ▸ hx)

theorem sqAux_id (l : List Char) (h : '\n' ∉ l) : sqAux none l = l := by
  induction l with
  | nil => rfl
  | cons c cs ih =>
    have hc : ¬c = '\n' := fun he => h (he ▸ List.mem_cons_self c cs)
    simp only [sqAux, hc, if_false]
    rw [ih (fun hm => h (List.mem_cons_of_mem c hm))]


/-! ## Lemmas about the extraction loop -/

theorem tryPatterns_append_falsy (text : String) (proc : Option (String → JSVal))
    (pats1 pats2 : List Pat)
    (h : ∀ q ∈ pats1, (matchGroup1 q text).getD "" = "") :
    tryPatterns text proc (pats1 ++ pats2) = tryPatterns text proc pats2 := by
  induction pats1 with
  | nil => rfl
  | cons q rest ih =>
    have hq : (matchGroup1 q text).getD "" = "" := h q (List.mem_cons_self q rest)
    have hrest : ∀ p ∈ rest, (matchGroup1 p text).getD "" = "" :=
      fun p hp => h p (List.mem_cons_of_mem q hp)
    cases hm : matchGroup1 q text with
    | none =>
      simp only [List.cons_append, tryPatterns, hm]
      exact ih hrest
    | some v =>
      have hv : v = "" := by simpa [hm] using hq
      simp only [List.cons_append, tryPatterns, hm, hv]
      simpa using ih hrest

theorem tryPatterns_none (text : String) (proc : Option (String → JSVal)) (pats : List Pat)
    (h : ∀ q ∈ pats, (matchGroup1 q text).getD "" = "") :
    tryPatterns text proc pats = none := by
  simpa using tryPatterns_append_falsy text proc pats [] h

theorem tryPatterns_cons_hit (text : String) (proc : Option (String → JSVal)) (pat : Pat)
    (rest : List Pat) (v : String) (hv : matchGroup1 pat text = some v) (hne : v ≠ "") :
    tryPatterns text proc (pat :: rest) = some (applyProcessor proc (jsTrim v)) := by
  simp [tryPatterns, hv, hne]

/-- Shared first-hit lemma: when every rule before `pat` is falsy and `pat`
captures a non-empty `v`, the whole extractor returns the processed trimmed
capture, whatever the later rules and the fallback are. -/
theorem extractField_first_hit (text fieldName : String) (pats1 pats2 : List Pat) (pat : Pat)
    (proc fb : Option (String → JSVal)) (v : String)
    (h1 : ∀ q ∈ pats1, (matchGroup1 q text).getD "" = "")
    (hv : matchGroup1 pat text = some v) (hne : v ≠ "") :
    extractFieldWithPrompt text ⟨fieldName, pats1 ++ pat :: pats2, proc, fb⟩ =
      applyProcessor proc (jsTrim v) := by
  unfold extractFieldWithPrompt
  rw [show (⟨fieldName, pats1 ++ pat :: pats2, proc, fb⟩ : PromptTemplate).patterns =
        pats1 ++ pat :: pats2 from rfl,
      show (⟨fieldName, pats1 ++ pat :: pats2, proc, fb⟩ : PromptTemplate).processor = proc
        from rfl,
      tryPatterns_append_falsy text proc pats1 (pat :: pats2) h1,
      tryPatterns_cons_hit text proc pat pats2 v hv hne]

/-! ## Claim theorems -/

/-- C1: the spec's end-to-end scenario. The amount, tax amount and payment
method come out as claimed, but the date comes out as the sentinel "日付不明"
rather than "2024-03-05": the extraction loop hands only capture group 1
(`"2024"`) to the date processor, which needs at least two tokens and returns
`null`. The claim is a code bug witnessed by this evaluation. -/
theorem c1_scenario_date_degrades :
    ((parseReceiptText c1text "receipt1").date,
     (parseReceiptText c1text "receipt1").amount,
     (parseReceiptText c1text "receipt1").taxAmount,
     jsvalStrContains (parseReceiptText c1text "receipt1").paymentMethod "クレジット") =
      (JSVal.str "日付不明", JSVal.num 3300, JSVal.num 300, true) := by decide

/-- C3 counterexample: handed empty text, the assembler does not signal the
empty-OCR condition; it returns the fully degraded record. -/
theorem c3_empty_text_degraded_record :
    parseReceiptText "" "img1" =
      { id := "img1", storeName := .str "不明な店舗", date := .str "日付不明",
        amount := .num 0, items := [], taxAmount := .undefined, paymentMethod := .undefined,
        rawText := "", category := "その他" } := by decide

/-- C3 as amended: assembly is total — any present first annotation, its text
empty or not, yields a receipt and never an error — and the "テキストが検出
されませんでした" (empty OCR result) signal is raised exactly when the OCR
collaborator returns no text annotations at all. -/
theorem c3_empty_ocr_signal (path : String) :
    (∀ text, handleDetections (some [some text]) path = Except.ok (parseReceiptText text path)) ∧
    handleDetections none path = Except.error "テキストが検出されませんでした" ∧
    handleDetections (some []) path = Except.error "テキストが検出されませんでした" ∧
    (∀ d ds, ∃ r, handleDetections (some (d :: ds)) path = Except.ok r) :=
  ⟨fun _ => rfl, rfl, rfl, fun _ _ => ⟨_, rfl⟩⟩

/-- C7: the category classifier is total — every store name is sent to one of
the seven labels — and the account mapper sends every label to a non-empty
account name. -/
theorem c7_categorize_total_account_nonempty (s : String) :
    categorizeStore s ∈ categoryLabels ∧
      ∀ c ∈ categoryLabels, mapCategoryToAccount c ≠ "" := by
  constructor
  · unfold categorizeStore
    dsimp only
    repeat' split
    all_goals decide
  · intro c hc
    fin_cases hc <;> decide

/-- Witness for C7: the totality theorem applied to a concrete store name and
a concrete label. -/
theorem c7_categorize_total_account_nonempty_witness :
    categorizeStore "カフェ青山" ∈ categoryLabels ∧ mapCategoryToAccount "飲食" ≠ "" :=
  ⟨(c7_categorize_total_account_nonempty "カフェ青山").1,
    (c7_categorize_total_account_nonempty "カフェ青山").2 "飲食" (by decide)⟩

/-- C8 counterexample: a receipt whose tax amount is present but zero (which
the patterns can produce, e.g. from "消費税:00") exports a tax column of
`floor(amount * 0.1)` = 10, not the present tax amount 0, because `||` treats
the number 0 as absent. -/
theorem c8_zero_tax_uses_floor_fallback :
    (parseReceiptText "合計:100 消費税:00" "rcpt").taxAmount = JSVal.num 0 ∧
      (accountingRow (parseReceiptText "合計:100 消費税:00" "rcpt")).taxCol = JSVal.num 10 := by
  decide

/-- C8 as amended: the exported tax column equals the receipt's tax amount
when it is present and non-zero, and equals `floor(amount * 0.1)` when it is
absent or zero; the tax classification column is the constant "課税"
("taxable") and the note column is "領収書ID: {id}". -/
theorem c8_accounting_tax_column (r : Receipt) :
    (∀ t : Int, r.taxAmount = .num t → t ≠ 0 → (accountingRow r).taxCol = .num t) ∧
    (r.taxAmount = .undefined → (accountingRow r).taxCol = jsFloorTenth r.amount) ∧
    (r.taxAmount = .num 0 → (accountingRow r).taxCol = jsFloorTenth r.amount) ∧
    (accountingRow r).taxClassCol = "課税" ∧
    (accountingRow r).noteCol = "領収書ID: " ++ r.id := by
  refine ⟨fun t ht hne => ?_, fun h => ?_, fun h => ?_, rfl, rfl⟩
  · simp [accountingRow, jsOr, JSVal.truthy, ht, hne]
  · simp [accountingRow, jsOr, JSVal.truthy, h]
  · simp [accountingRow, jsOr, JSVal.truthy, h]

/-- Witness for C8: the amended theorem applied to a concrete receipt with a
present, non-zero tax amount. -/
theorem c8_accounting_tax_column_witness :
    (accountingRow c8sample).taxCol = JSVal.num 300 :=
  (c8_accounting_tax_column c8sample).1 300 rfl (by decide)

/-- C5: rules are evaluated strictly in list order and the first rule whose
pattern produces a truthy first capture wins; the result is that rule's
trimmed capture run through the field's processor (if any), independent of
every later rule. -/
theorem c5_first_rule_wins (text fieldName : String) (pats1 pats2 : List Pat) (pat : Pat)
    (proc fb : Option (String → JSVal)) (v : String)
    (h1 : ∀ q ∈ pats1, (matchGroup1 q text).getD "" = "")
    (hv : matchGroup1 pat text = some v) (hne : v ≠ "") :
    extractFieldWithPrompt text ⟨fieldName, pats1 ++ pat :: pats2, proc, fb⟩ =
      applyProcessor proc (jsTrim v) :=
  extractField_first_hit text fieldName pats1 pats2 pat proc fb v h1 hv hne

/-- Witness for C5: on "合計300円 お会計500円" both the first and the fourth
amount rule match, and the extractor returns the first rule's 300, not the
later rule's 500. -/
theorem c5_first_rule_wins_witness :
    matchGroup1 amountPat1 "合計300円 お会計500円" = some "300" ∧
    matchGroup1 amountPat4 "合計300円 お会計500円" = some "500" ∧
    extractFieldWithPrompt "合計300円 お会計500円" amountPrompt = JSVal.num 300 :=
  ⟨by decide, by decide,
    (c5_first_rule_wins "合計300円 お会計500円" "amount" []
      [amountPat2, amountPat3, amountPat4, amountPat5] amountPat1 (some amountProcessor)
      (some amountFallback) "300" (by intro q hq; simp at hq) (by decide)
      (by decide)).trans (by decide)⟩

/-- C4: when a rule's pattern matches (truthy first capture) and the field has
a value processor, the field's result is exactly the processor's output — even
when that output is the absent value `null` — for every possible fallback: the
fallback is never consulted on processor failure, and nothing is thrown. -/
theorem c4_processor_failure_skips_fallback (text fieldName : String) (pats1 pats2 : List Pat)
    (pat : Pat) (proc : String → JSVal) (v : String)
    (h1 : ∀ q ∈ pats1, (matchGroup1 q text).getD "" = "")
    (hv : matchGroup1 pat text = some v) (hne : v ≠ "") :
    ∀ fb : Option (String → JSVal),
      extractFieldWithPrompt text ⟨fieldName, pats1 ++ pat :: pats2, some proc, fb⟩ =
        proc (jsTrim v) := by
  intro fb
  exact extractField_first_hit text fieldName pats1 pats2 pat (some proc) fb v h1 hv hne

/-- Witness for C4: the date rule matches "日付：2024/03/05" but its processor
returns `null`; the result is `null` (absent) even with a poisoned fallback
installed, and the real date prompt behaves identically. -/
theorem c4_processor_failure_skips_fallback_witness :
    extractFieldWithPrompt "日付：2024/03/05"
        ⟨"date", [datePat1, datePat2, datePat3, datePat4], some dateProcessor,
          some (fun _ => JSVal.str "FALLBACK")⟩ = JSVal.null ∧
    extractFieldWithPrompt "日付：2024/03/05" datePrompt = JSVal.null :=
  ⟨(c4_processor_failure_skips_fallback "日付：2024/03/05" "date" []
      [datePat2, datePat3, datePat4] datePat1 dateProcessor "2024" (by intro q hq; simp at hq)
      (by decide) (by decide) (some (fun _ => JSVal.str "FALLBACK"))).trans (by decide),
    by decide⟩

/-- C6: when none of the five amount patterns produce a truthy capture, the
amount field equals the spec's fallback: the maximum over all currency-marked
number tokens in the whole text (thousands separators stripped), and 0 when
there is no such token; the fallback runs only in that no-pattern case. -/
theorem c6_amount_fallback_is_max (text : String)
    (h : ∀ q ∈ amountPrompt.patterns, (matchGroup1 q text).getD "" = "") :
    extractFieldWithPrompt text amountPrompt = specAmountFallback text := by
  unfold extractFieldWithPrompt
  rw [tryPatterns_none text amountPrompt.processor amountPrompt.patterns h]
  cases hm : jsMatchAll currencyPat text with
  | nil => simp [amountPrompt, amountFallback, specAmountFallback, hm]
  | cons x xs => simp [amountPrompt, amountFallback, specAmountFallback, jsMathMax, hm]

/-- Witness for C6: the spec's own example — a text whose only amounts are the
unlabeled ¥500 and ¥1,500 — hits the fallback and yields the maximum, 1500. -/
theorem c6_amount_fallback_is_max_witness :
    extractFieldWithPrompt "お茶 ¥500 と ¥1,500 なり" amountPrompt = JSVal.num 1500 ∧
    jsMatchAll currencyPat "お茶 ¥500 と ¥1,500 なり" = ["¥500", "¥1,500"] :=
  ⟨(c6_amount_fallback_is_max "お茶 ¥500 と ¥1,500 なり" (by decide)).trans (by decide),
    by decide⟩

/-- C9: the normalizer is idempotent. -/
theorem c9_normalizer_idempotent (s : String) :
    postprocessText (postprocessText s) = postprocessText s := by
  have hA : '\n' ∉ collapseWsAux false s.data := collapseWsAux_no_newline s.data false
  have hm : '\n' ∉ List.map foldChar (collapseWsAux false s.data) :=
    map_foldChar_no_newline _ hA
  have hsq : sqAux none (List.map foldChar (collapseWsAux false s.data)) =
      List.map foldChar (collapseWsAux false s.data) := sqAux_id _ hm
  show String.mk (sqAux none (List.map foldChar (collapseWsAux false
      (String.mk (sqAux none (List.map foldChar (collapseWsAux false s.data)))).data))) =
    String.mk (sqAux none (List.map foldChar (collapseWsAux false s.data)))
  rw [show (String.mk (sqAux none (List.map foldChar (collapseWsAux false s.data)))).data =
      sqAux none (List.map foldChar (collapseWsAux false s.data)) from rfl]
  rw [hsq, collapseWsAux_map_foldChar (collapseWsAux false s.data) false,
    collapseWsAux_idem s.data false, map_foldChar_idem, hsq]

/-- C2 refuted: whitespace collapsing in `postprocessText` is not
horizontal-only — `\s+` swallows newlines, so no newline ever survives
normalization; in particular the two non-blank lines of "a\nb" come back as
the single line "a b". The later patterns' reliance on line boundaries and the
dead blank-line-collapsing step show this to be a slip in the code. -/
theorem c2_newlines_not_preserved :
    (∀ s : String, '\n' ∉ (postprocessText s).data) ∧
      postprocessText "a\nb" = "a b" ∧ splitLines (postprocessText "a\nb") = ["a b"] := by
  refine ⟨fun s => ?_, by decide, by decide⟩
  have hm : '\n' ∉ List.map foldChar (collapseWsAux false s.data) :=
    map_foldChar_no_newline _ (collapseWsAux_no_newline s.data false)
  show '\n' ∉
    (String.mk (squeezeBlankLines (List.map foldChar (collapseWsAux false s.data)))).data
  unfold squeezeBlankLines
  rw [show (String.mk (sqAux none (List.map foldChar (collapseWsAux false s.data)))).data =
      sqAux none (List.map foldChar (collapseWsAux false s.data)) from rfl]
  rw [sqAux_id _ hm]
  exact hm

/-- C10 counterexample: "合計 12 ¥5" has no multi-digit currency-marked number
(its only currency-marked number is the single-digit ¥5), yet the assembled
amount is 12, because the labeled amount patterns do not require a currency
mark; the claim's "for any input text whose only currency-marked numbers are
single digits … the assembled amount is 0" fails here. -/
theorem c10_label_without_currency_mark :
    jsMatchAll currencyPat (postprocessText "合計 12 ¥5") = [] ∧
    (parseReceiptText "合計 12 ¥5" "r").amount = JSVal.num 12 := by decide

/-- C10 as amended: every numeric capture group of the amount and tax rule
tables, of the amount fallback scan, and of the line-item unit/total price
positions wraps the shape `\d[\d,]+`, so any value it captures, on any text,
has at least two characters; and on the exemplar "合計 ¥5", whose only
number is a single digit, no pattern and no fallback token matches: the
assembled amount is 0, no line item is produced, and the tax amount is
absent. -/
theorem c10_numeric_captures_two_chars :
    (∀ p ∈ numericPats, ∀ text v, matchGroup1 p text = some v → 2 ≤ v.length) ∧
    (∀ n ∈ [3, 4], ∀ text v, matchGroupN itemPat n text = some v → 2 ≤ v.length) ∧
    (parseReceiptText "合計 ¥5" "r").amount = JSVal.num 0 ∧
    (parseReceiptText "合計 ¥5" "r").items = [] ∧
    (parseReceiptText "合計 ¥5" "r").taxAmount = JSVal.undefined := by
  refine ⟨?_, ?_, by decide, by decide, by decide⟩
  · intro p hp text v h
    refine capMinTwo p 1 ?_ text v h
    fin_cases hp <;> decide
  · intro n hn text v h
    refine capMinTwo itemPat n ?_ text v h
    fin_cases hn <;> decide

/-- Witness for C10: the amended theorem applied to the concrete two-character
capture "45" from "合計 45". -/
theorem c10_numeric_captures_two_chars_witness :
    matchGroup1 amountPat1 "合計 45" = some "45" ∧ 2 ≤ ("45" : String).length :=
  ⟨by decide,
    c10_numeric_captures_two_chars.1 amountPat1 (by decide) "合計 45" "45" (by decide)⟩

end ReceiptAnalyzer
